import Mathlib

/-!
Shallow embedding of the ASCII ray tracer (`src/main.cpp`): a 3-vector type,
ray/sphere geometry over the real numbers (the source's `float` arithmetic is
idealized as exact real arithmetic, with `std::sqrt` as `Real.sqrt`), the
character-palette shading functions, the per-cell frame renderer with its
differential buffer update, and the differential display writer.
-/

namespace AsciiRay

/-- Vector struct `Vec3` of the source, generalized over the scalar type. -/
structure Vec3 (α : Type) : Type where
  x : α
  y : α
  z : α
  deriving DecidableEq

/-- Componentwise addition, `Vec3::operator+`. -/
def Vec3.add {α : Type} [Add α] (a b : Vec3 α) : Vec3 α :=
  ⟨a.x + b.x, a.y + b.y, a.z + b.z⟩

/-- Componentwise subtraction, `Vec3::operator-`. -/
def Vec3.sub {α : Type} [Sub α] (a b : Vec3 α) : Vec3 α :=
  ⟨a.x - b.x, a.y - b.y, a.z - b.z⟩

/-- Scalar multiplication, `Vec3::operator*(float)`. -/
def Vec3.smul {α : Type} [Mul α] (v : Vec3 α) (s : α) : Vec3 α :=
  ⟨v.x * s, v.y * s, v.z * s⟩

/-- Dot product, `Vec3::dot`. -/
def Vec3.dot {α : Type} [Add α] [Mul α] (a b : Vec3 α) : α :=
  a.x * b.x + a.y * b.y + a.z * b.z

instance {α : Type} [Add α] : Add (Vec3 α) := ⟨Vec3.add⟩

instance {α : Type} [Sub α] : Sub (Vec3 α) := ⟨Vec3.sub⟩

instance {α : Type} [Mul α] : HMul (Vec3 α) α (Vec3 α) := ⟨Vec3.smul⟩

@[simp] theorem Vec3.add_def {α : Type} [Add α] (a b : Vec3 α) :
    a + b = ⟨a.x + b.x, a.y + b.y, a.z + b.z⟩ := rfl

@[simp] theorem Vec3.sub_def {α : Type} [Sub α] (a b : Vec3 α) :
    a - b = ⟨a.x - b.x, a.y - b.y, a.z - b.z⟩ := rfl

@[simp] theorem Vec3.smul_def {α : Type} [Mul α] (v : Vec3 α) (s : α) :
    v * s = ⟨v.x * s, v.y * s, v.z * s⟩ := rfl

@[simp] theorem Vec3.mk_x {α : Type} (a b c : α) : (Vec3.mk a b c).x = a := rfl

@[simp] theorem Vec3.mk_y {α : Type} (a b c : α) : (Vec3.mk a b c).y = b := rfl

@[simp] theorem Vec3.mk_z {α : Type} (a b c : α) : (Vec3.mk a b c).z = c := rfl

/-- Normalization `Vec3::normalize`: divide each component by the magnitude
`sqrt(x*x + y*y + z*z)`. -/
noncomputable def Vec3.normalize (v : Vec3 ℝ) : Vec3 ℝ :=
  let mag := Real.sqrt (v.x * v.x + v.y * v.y + v.z * v.z)
  ⟨v.x / mag, v.y / mag, v.z / mag⟩

/-- A ray: origin plus direction. The source's constructor always normalizes
the direction, which `mkRay` below performs. -/
structure Ray : Type where
  origin : Vec3 ℝ
  direction : Vec3 ℝ

/-- Ray construction `Ray::Ray`: the stored direction is the normalized input
direction. -/
noncomputable def mkRay (origin direction : Vec3 ℝ) : Ray :=
  ⟨origin, direction.normalize⟩

/-- Sphere struct of the source: center and radius. -/
structure Sphere : Type where
  center : Vec3 ℝ
  radius : ℝ

/-- Ray-sphere intersection `Sphere::intersect`.  The boolean result plus the
three out-parameters `(t, hitPoint, normal)` of the source are modelled as an
`Option` of the triple. -/
noncomputable def Sphere.intersect (s : Sphere) (ray : Ray) :
    Option (ℝ × Vec3 ℝ × Vec3 ℝ) :=
  let oc := ray.origin - s.center
  let a := ray.direction.dot ray.direction
  let b := 2 * oc.dot ray.direction
  let c := oc.dot oc - s.radius * s.radius
  let discriminant := b * b - 4 * a * c
  if discriminant < 0 then none
  else
    let t := (-b - Real.sqrt discriminant) / (2 * a)
    if t ≤ 0 then none
    else
      let hitPoint := ray.origin + ray.direction * t
      some (t, hitPoint, (hitPoint - s.center).normalize)

/-- Checkerboard parity test `isCheckerboard`: floor the x and z coordinates
and test whether their sum is even. -/
def isCheckerboard {α : Type} [LinearOrderedField α] [FloorRing α]
    (point : Vec3 α) : Bool :=
  let checkerX := ⌊point.x⌋
  let checkerZ := ⌊point.z⌋
  (checkerX + checkerZ) % 2 == 0

/-- The seven-character palette `" .:-=+*"` of `getShade`. -/
def shades : List Char := [' ', '.', ':', '-', '=', '+', '*']

/-- Shading function `getShade`: clamp `t` to `[0,1]`; in the reflective
branch index the palette by the truncation of `t * (size-1)` capped at
`size-1`; otherwise apply the checkerboard test to the synthetic point
`(t, 0, 0)` built from the clamped intensity. -/
def getShade {α : Type} [LinearOrderedField α] [FloorRing α]
    (t : α) (reflective : Bool) : Char :=
  let t1 := if t < 0 then 0 else t
  let t2 := if t1 > 1 then 1 else t1
  let index : ℤ :=
    min ⌊t2 * ((shades.length - 1 : ℕ) : α)⌋ ((shades.length - 1 : ℕ) : ℤ)
  if reflective then shades.getD index.toNat ' '
  else if isCheckerboard (⟨t2, 0, 0⟩ : Vec3 α) then '*' else ' '

/-- The hardcoded scene sphere created inside `render`: center `(0,2,3)`,
radius `1`. -/
def sphereScene : Sphere := ⟨⟨0, 2, 3⟩, 1⟩

/-- Horizontal view-plane coordinate of column `x`:
`(x - adjustedWidth / 2.0f) / adjustedWidth * aspectRatio`, where
`aspectRatio` is `width / height` of the full requested grid. -/
noncomputable def cellU (width height aw : ℕ) (x : ℕ) : ℝ :=
  ((x : ℝ) - (aw : ℝ) / 2) / (aw : ℝ) * ((width : ℝ) / (height : ℝ))

/-- Vertical view-plane coordinate of row `y`:
`(adjustedHeight / 2.0f - y) / adjustedHeight`. -/
noncomputable def cellV (ah : ℕ) (y : ℕ) : ℝ :=
  ((ah : ℝ) / 2 - (y : ℝ)) / (ah : ℝ)

/-- The camera ray of a cell: through `(u, v, 1)` relative to the camera. -/
noncomputable def cellRay (width height aw ah : ℕ) (camera : Vec3 ℝ)
    (x y : ℕ) : Ray :=
  mkRay camera ⟨cellU width height aw x, cellV ah y, 1⟩

/-- Mirror reflection `d - n * (2 * d.dot(n))` of line 98 of the source. -/
noncomputable def reflectionDir (d n : Vec3 ℝ) : Vec3 ℝ :=
  d - n * (2 * d.dot n)

/-- The character computed for one camera ray: the body of the per-cell loop
of `render` (lines 93-116 of the source). -/
noncomputable def shadeRay (camera : Vec3 ℝ) (ray : Ray) : Char :=
  match sphereScene.intersect ray with
  | some (t, hitPoint, normal) =>
    let reflectionRay := mkRay hitPoint (reflectionDir ray.direction normal)
    let floorDist := -hitPoint.y / reflectionRay.direction.y
    if floorDist > 0 then
      let floorPoint := hitPoint + reflectionRay.direction * floorDist
      getShade (1 : ℝ) (isCheckerboard floorPoint)
    else getShade t true
  | none =>
    if ray.direction.y < 0 then
      let floorDist := -camera.y / ray.direction.y
      let floorPoint := camera + ray.direction * floorDist
      getShade (1 : ℝ) (isCheckerboard floorPoint)
    else ' '

/-- The character computed for cell `(x, y)` during a render call. -/
noncomputable def renderChar (width height aw ah : ℕ) (camera : Vec3 ℝ)
    (x y : ℕ) : Char :=
  shadeRay camera (cellRay width height aw ah camera x y)

/-- The aspect-corrected sub-rectangle `(adjustedWidth, adjustedHeight)`
computed at the top of `render` for a 16:9 target ratio.  The `int` casts of
the source truncate the nonnegative quotients, i.e. take floors. -/
def adjusted (width height : ℕ) : ℕ × ℕ :=
  let targetAspectRatio : ℚ := 16 / 9
  let adjustedHeight := (⌊(width : ℚ) / targetAspectRatio⌋).toNat
  if height < adjustedHeight then ((⌊(height : ℚ) * targetAspectRatio⌋).toNat, height)
  else (width, adjustedHeight)

/-- The cells `(x, y)` visited by the double loop of `render`: `y` outer over
the rows, `x` inner over the columns. -/
def cellList (aw ah : ℕ) : List (ℕ × ℕ) :=
  (List.range ah).flatMap fun y => (List.range aw).map fun x => (x, y)

/-- Row-major buffer index `y * width + x` of a cell. -/
def idx (width : ℕ) (c : ℕ × ℕ) : ℕ :=
  c.2 * width + c.1

/-- One iteration of the per-cell loop: compute the cell's character and, when
it differs from the buffer, overwrite the buffer and set the change flag. -/
noncomputable def renderStep (width height aw ah : ℕ) (camera : Vec3 ℝ)
    (st : (ℕ → Char) × (ℕ → Bool)) (c : ℕ × ℕ) : (ℕ → Char) × (ℕ → Bool) :=
  let newChar := renderChar width height aw ah camera c.1 c.2
  if newChar ≠ st.1 (idx width c) then
    (Function.update st.1 (idx width c) newChar,
     Function.update st.2 (idx width c) true)
  else st

/-- The frame renderer `render`: clear the change mask, then run the per-cell
loop over the aspect-corrected sub-rectangle, threading the frame buffer and
change mask through `renderStep`. -/
noncomputable def render (width height : ℕ) (camera : Vec3 ℝ)
    (buffer : ℕ → Char) : (ℕ → Char) × (ℕ → Bool) :=
  let aw := (adjusted width height).1
  let ah := (adjusted width height).2
  (cellList aw ah).foldl (renderStep width height aw ah camera)
    (buffer, fun _ => false)

/-- The differential display writer `displayBuffer`: walk all cells in row
order and, for each cell whose change flag is set, emit one cursor-positioned
update `(row+1, column+1, character)`; the emitted character is `'*'` when
the buffer holds `'*'` and a space otherwise (line 138 of the source). -/
def displayBuffer (width height : ℕ) (buffer : ℕ → Char)
    (changed : ℕ → Bool) : List (ℕ × ℕ × Char) :=
  (cellList width height).filterMap fun c =>
    if changed (idx width c) then
      some (c.2 + 1, c.1 + 1,
        if buffer (idx width c) = '*' then '*' else ' ')
    else none


/-- Coefficient `a = dot(dir, dir)` of the intersection quadratic. -/
noncomputable def quadA (ray : Ray) : ℝ :=
  ray.direction.dot ray.direction

/-- Coefficient `b = 2 * dot(oc, dir)` of the intersection quadratic. -/
noncomputable def quadB (s : Sphere) (ray : Ray) : ℝ :=
  2 * (ray.origin - s.center).dot ray.direction

/-- Coefficient `c = dot(oc, oc) - r*r` of the intersection quadratic. -/
noncomputable def quadC (s : Sphere) (ray : Ray) : ℝ :=
  (ray.origin - s.center).dot (ray.origin - s.center) - s.radius * s.radius

/-- Discriminant `b*b - 4*a*c` of the intersection quadratic. -/
noncomputable def disc (s : Sphere) (ray : Ray) : ℝ :=
  quadB s ray * quadB s ray - 4 * quadA ray * quadC s ray

/-- Near root `(-b - sqrt(discriminant)) / (2*a)` of the quadratic. -/
noncomputable def nearRoot (s : Sphere) (ray : Ray) : ℝ :=
  (-quadB s ray - Real.sqrt (disc s ray)) / (2 * quadA ray)

/-! ## Helper lemmas -/

theorem cellList_mem {aw ah : ℕ} {c : ℕ × ℕ} :
    c ∈ cellList aw ah ↔ c.1 < aw ∧ c.2 < ah := by
  simp only [cellList, List.mem_flatMap, List.mem_map, List.mem_range]
  constructor
  · rintro ⟨y, hy, x, hx, rfl⟩
    exact ⟨hx, hy⟩
  · rintro ⟨h1, h2⟩
    exact ⟨c.2, h2, c.1, h1, rfl⟩

theorem cellList_nodup (aw ah : ℕ) : (cellList aw ah).Nodup := by
  rw [cellList, List.nodup_flatMap]
  constructor
  · intro y _
    exact (List.nodup_range aw).map fun a b h => by
      simpa using congrArg Prod.fst h
  · refine (List.nodup_range ah).imp ?_
    intro a b hab p hpa hpb
    simp only [List.mem_map, List.mem_range] at hpa hpb
    obtain ⟨x, _, rfl⟩ := hpa
    obtain ⟨x', _, h⟩ := hpb
    injection h with h1 h2
    exact hab h2.symm

theorem displayBuffer_nodup (w h : ℕ) (buf : ℕ → Char) (ch : ℕ → Bool) :
    (displayBuffer w h buf ch).Nodup := by
  refine List.Nodup.filterMap ?_ (cellList_nodup w h)
  intro a a' b hba hba'
  simp only [Option.mem_def] at hba hba'
  by_cases hc : ch (idx w a) = true
  · rw [if_pos hc] at hba
    by_cases hc' : ch (idx w a') = true
    · rw [if_pos hc'] at hba'
      rw [← hba'] at hba
      injection hba with e0
      injection e0 with e1 e2
      injection e2 with e3 e4
      exact Prod.ext (by omega) (by omega)
    · simp [hc'] at hba'
  · simp [hc] at hba

theorem displayBuffer_mem {w h : ℕ} {buf : ℕ → Char} {ch : ℕ → Bool}
    {r c : ℕ} {a : Char} :
    (r, c, a) ∈ displayBuffer w h buf ch ↔
      ∃ x y, x < w ∧ y < h ∧ ch (y * w + x) = true ∧ r = y + 1 ∧ c = x + 1 ∧
        a = (if buf (y * w + x) = '*' then '*' else ' ') := by
  simp only [displayBuffer, List.mem_filterMap]
  constructor
  · rintro ⟨cell, hmem, hf⟩
    rw [cellList_mem] at hmem
    by_cases hc : ch (idx w cell) = true
    · rw [if_pos hc] at hf
      injection hf with e0
      injection e0 with e1 e2
      injection e2 with e3 e4
      refine ⟨cell.1, cell.2, hmem.1, hmem.2, ?_, e1.symm, e3.symm, e4.symm⟩
      simpa [idx] using hc
    · simp [hc] at hf
  · rintro ⟨x, y, hx, hy, hch, rfl, rfl, rfl⟩
    refine ⟨(x, y), cellList_mem.2 ⟨hx, hy⟩, ?_⟩
    simp [idx, hch]

theorem getShade_false_eq {α : Type} [LinearOrderedField α] [FloorRing α] (t : α) :
    getShade t false = if t < 1 then '*' else ' ' := by
  simp only [getShade, isCheckerboard, shades]
  by_cases h0 : t < 0
  · rw [if_pos h0]
    norm_num [h0.trans zero_lt_one]
  · rw [if_neg h0]
    push_neg at h0
    by_cases h1 : t > 1
    · rw [if_pos h1]
      norm_num [not_lt.2 h1.le]
    · rw [if_neg h1]
      push_neg at h1
      by_cases h2 : t < 1
      · rw [if_pos h2]
        have : ⌊t⌋ = 0 := Int.floor_eq_zero_iff.2 ⟨h0, h2⟩
        norm_num [this]
      · push_neg at h2
        have ht : t = 1 := le_antisymm h1 h2
        subst ht
        norm_num

theorem getShade_true_eq {α : Type} [LinearOrderedField α] [FloorRing α] (t : α) :
    getShade t true = shades.getD (min ⌊min 1 (max 0 t) * 6⌋ 6).toNat ' ' := by
  simp only [getShade, shades]
  by_cases h0 : t < 0
  · rw [if_pos h0]
    have : min (1 : α) (max 0 t) = 0 := by
      rw [max_eq_left h0.le, min_eq_right zero_le_one]
    rw [this]
    norm_num
  · rw [if_neg h0]
    push_neg at h0
    by_cases h1 : t > 1
    · rw [if_pos h1]
      have : min (1 : α) (max 0 t) = 1 := by
        rw [max_eq_right (zero_le_one.trans h1.le), min_eq_left h1.le]
      rw [this]
      norm_num
    · rw [if_neg h1]
      push_neg at h1
      have : min (1 : α) (max 0 t) = t := by
        rw [max_eq_right h0, min_eq_right h1]
      rw [this]
      norm_num

theorem getShade_index_bounds {α : Type} [LinearOrderedField α] [FloorRing α]
    (t : α) : 0 ≤ min ⌊min 1 (max 0 t) * 6⌋ 6 ∧ min ⌊min 1 (max 0 t) * 6⌋ 6 ≤ 6 := by
  refine ⟨le_min ?_ (by norm_num), min_le_right _ _⟩
  have h1 : (0 : α) ≤ min 1 (max 0 t) := le_min zero_le_one (le_max_left 0 t)
  have h2 : (0 : α) ≤ min 1 (max 0 t) * 6 := by positivity
  exact_mod_cast Int.floor_nonneg.2 h2

/-! ## Claim C1: the differential display writer -/

/-- C1 counterexample: on a one-cell grid whose buffer holds the period
character and whose change mask is true, `displayBuffer` emits the space
character at position `(1,1)`, not the buffer's current character `'.'`. -/
theorem displayBuffer_blank_cex :
    displayBuffer 1 1 (fun _ => '.') (fun _ => true) = [(1, 1, ' ')] ∧
      ' ' ≠ '.' := by
  constructor
  · rfl
  · decide

/-- C1 (amended): for every buffer and change mask, `displayBuffer` emits
exactly one cursor-positioning update per cell whose change-mask entry is
true, at 1-based position `(row+1, column+1)`, drawing `'*'` when the
buffer's character there is `'*'` and a space otherwise; cells whose
change-mask entry is false produce no output. -/
theorem displayBuffer_emission_spec : ∀ (w h : ℕ) (buf : ℕ → Char) (ch : ℕ → Bool),
    (displayBuffer w h buf ch).Nodup ∧
      ∀ (r c : ℕ) (a : Char), (r, c, a) ∈ displayBuffer w h buf ch ↔
        ∃ x y, x < w ∧ y < h ∧ ch (y * w + x) = true ∧ r = y + 1 ∧ c = x + 1 ∧
          a = (if buf (y * w + x) = '*' then '*' else ' ') :=
  fun w h buf ch => ⟨displayBuffer_nodup w h buf ch, fun _ _ _ => displayBuffer_mem⟩

/-! ## Claim C3: reflective shading quantization -/

/-- C3 counterexample: at intensity `1/4` the source truncates `1/4 * 6 = 1.5`
to palette index 1 (the period), while the claimed rounding would give index
`round 1.5 = 2` (the colon). -/
theorem getShade_round_cex :
    getShade (1/4 : ℚ) true = '.' ∧
      shades.getD (min (round ((min 1 (max 0 (1/4 : ℚ))) * 6)) 6).toNat ' ' = ':' ∧
      '.' ≠ ':' := by
  refine ⟨?_, ?_, by decide⟩
  · have hf : ⌊(1/4 * 6 : ℚ)⌋ = 1 := by
      rw [Int.floor_eq_iff]
      norm_num
    simp only [getShade, shades]
    norm_num [hf]
  · have hm : min (1 : ℚ) (max 0 (1/4)) = 1/4 := by
      rw [max_eq_right (by norm_num), min_eq_right (by norm_num)]
    have hr : round ((1/4 : ℚ) * 6) = 2 := by
      rw [round_eq, Int.floor_eq_iff]
      norm_num
    rw [hm, hr]
    rfl

/-- C3 (amended): `getShade t true` equals
`palette[min (trunc (clamp t 0 1 * 6)) 6]` — truncation toward zero of the
scaled clamped intensity, not rounding to nearest — the index always lies in
`0..6`, and the out-of-range intensities `-5` and `50` yield the same
characters as `0` and `1` respectively. -/
theorem getShade_trunc_spec {α : Type} [LinearOrderedField α] [FloorRing α]
    (t : α) :
    getShade t true = shades.getD (min ⌊min 1 (max 0 t) * 6⌋ 6).toNat ' ' ∧
      (0 ≤ min ⌊min 1 (max 0 t) * 6⌋ 6 ∧ min ⌊min 1 (max 0 t) * 6⌋ 6 ≤ 6) ∧
      getShade (-5 : α) true = getShade (0 : α) true ∧
      getShade (50 : α) true = getShade (1 : α) true := by
  refine ⟨getShade_true_eq t, getShade_index_bounds t, ?_, ?_⟩
  · have h1 : min (1 : α) (max 0 (-5)) = 0 := by
      rw [max_eq_left (by norm_num), min_eq_right zero_le_one]
    have h2 : min (1 : α) (max 0 0) = 0 := by
      rw [max_self, min_eq_right zero_le_one]
    rw [getShade_true_eq, getShade_true_eq, h1, h2]
  · have h1 : min (1 : α) (max 0 50) = 1 := by
      rw [max_eq_right (by norm_num), min_eq_left (by norm_num)]
    have h2 : min (1 : α) (max 0 1) = 1 := by
      rw [max_eq_right zero_le_one, min_eq_left le_rfl]
    rw [getShade_true_eq, getShade_true_eq, h1, h2]

/-- C3 witness: the amended statement instantiated at the concrete intensity
`1/4` over the rationals. -/
theorem getShade_trunc_spec_witness :
    getShade (1/4 : ℚ) true =
        shades.getD (min ⌊min 1 (max 0 (1/4 : ℚ)) * 6⌋ 6).toNat ' ' ∧
      (0 ≤ min ⌊min 1 (max 0 (1/4 : ℚ)) * 6⌋ 6 ∧
        min ⌊min 1 (max 0 (1/4 : ℚ)) * 6⌋ 6 ≤ 6) ∧
      getShade (-5 : ℚ) true = getShade (0 : ℚ) true ∧
      getShade (50 : ℚ) true = getShade (1 : ℚ) true :=
  getShade_trunc_spec (1/4 : ℚ)

/-! ## Claim C10: non-reflective shading -/

/-- C10: `getShade t false` ignores any spatial point and returns `'*'`
exactly when the clamped intensity is strictly below `1` (equivalently,
`t < 1`), and a space for every `t ≥ 1`: the checkerboard test applied to the
synthetic point `(clamp t, 0, 0)` has floored coordinate sum `0` for
`clamp t < 1` and `1` when `clamp t = 1`. -/
theorem getShade_nonreflective_spec {α : Type} [LinearOrderedField α]
    [FloorRing α] (t : α) :
    getShade t false = (if min 1 (max 0 t) < 1 then '*' else ' ') ∧
      (min 1 (max 0 t) < 1 ↔ t < 1) := by
  have hiff : min (1 : α) (max 0 t) < 1 ↔ t < 1 := by
    rw [min_lt_iff, max_lt_iff]
    simp [zero_lt_one]
  refine ⟨?_, hiff⟩
  rw [getShade_false_eq t]
  simp only [hiff]

/-- C10 witness: the statement instantiated at the concrete intensity `1/2`
over the rationals. -/
theorem getShade_nonreflective_spec_witness :
    getShade (1/2 : ℚ) false = (if min 1 (max 0 (1/2 : ℚ)) < 1 then '*' else ' ') ∧
      (min 1 (max 0 (1/2 : ℚ)) < 1 ↔ (1/2 : ℚ) < 1) :=
  getShade_nonreflective_spec (1/2 : ℚ)

end AsciiRay

namespace AsciiRay

theorem Vec3.ext {α : Type} {a b : Vec3 α} (hx : a.x = b.x) (hy : a.y = b.y)
    (hz : a.z = b.z) : a = b := by
  cases a
  cases b
  cases hx
  cases hy
  cases hz
  rfl

theorem sqrt_eval {a b : ℝ} (hb : 0 ≤ b) (h : b ^ 2 = a) : Real.sqrt a = b := by
  rw [← h, Real.sqrt_sq hb]

theorem normalize_unit {v : Vec3 ℝ} (h : v.x * v.x + v.y * v.y + v.z * v.z = 1) :
    v.normalize = v := by
  simp [Vec3.normalize, h, Real.sqrt_one]

theorem mkRay_unit {o v : Vec3 ℝ} (h : v.x * v.x + v.y * v.y + v.z * v.z = 1) :
    mkRay o v = ⟨o, v⟩ := by
  rw [mkRay, normalize_unit h]

theorem intersect_ite (s : Sphere) (ray : Ray) :
    s.intersect ray =
      if disc s ray < 0 then none
      else if nearRoot s ray ≤ 0 then none
      else some (nearRoot s ray, ray.origin + ray.direction * nearRoot s ray,
        (ray.origin + ray.direction * nearRoot s ray - s.center).normalize) := rfl

theorem intersect_c5 :
    (Sphere.mk ⟨0, 0, 5⟩ 1).intersect (mkRay ⟨0, 0, 0⟩ ⟨0, 0, 1⟩) =
      some (4, ⟨0, 0, 4⟩, ⟨0, 0, -1⟩) := by
  rw [mkRay_unit (by norm_num)]
  have hdisc : disc ⟨⟨0, 0, 5⟩, 1⟩ ⟨⟨0, 0, 0⟩, ⟨0, 0, 1⟩⟩ = 4 := by
    norm_num [disc, quadA, quadB, quadC, Vec3.dot]
  have hroot : nearRoot ⟨⟨0, 0, 5⟩, 1⟩ ⟨⟨0, 0, 0⟩, ⟨0, 0, 1⟩⟩ = 4 := by
    rw [nearRoot, hdisc, sqrt_eval (by norm_num : (0:ℝ) ≤ 2) (by norm_num)]
    norm_num [quadA, quadB, Vec3.dot]
  rw [intersect_ite, hdisc, hroot, if_neg (by norm_num), if_neg (by norm_num)]
  norm_num
  exact normalize_unit (by norm_num)

theorem shadeRay_some {camera : Vec3 ℝ} {ray : Ray} {t : ℝ} {hp n : Vec3 ℝ}
    (h : sphereScene.intersect ray = some (t, hp, n)) :
    shadeRay camera ray =
      (if -hp.y / (mkRay hp (reflectionDir ray.direction n)).direction.y > 0 then
        getShade (1 : ℝ) (isCheckerboard (hp +
          (mkRay hp (reflectionDir ray.direction n)).direction *
            (-hp.y / (mkRay hp (reflectionDir ray.direction n)).direction.y)))
      else getShade t true) := by
  unfold shadeRay
  rw [h]

theorem shadeRay_none {camera : Vec3 ℝ} {ray : Ray}
    (h : sphereScene.intersect ray = none) :
    shadeRay camera ray =
      (if ray.direction.y < 0 then
        getShade (1 : ℝ) (isCheckerboard (camera +
          ray.direction * (-camera.y / ray.direction.y)))
      else ' ') := by
  unfold shadeRay
  rw [h]

theorem getShade_one_bool {α : Type} [LinearOrderedField α] [FloorRing α]
    (b : Bool) : getShade (1 : α) b = if b then '*' else ' ' := by
  cases b
  · simp only [getShade, isCheckerboard, shades]
    norm_num
  · simp only [getShade, shades]
    norm_num
    rfl

theorem cellU_center : cellU 200 250 200 100 = 0 := by
  norm_num [cellU]

theorem cellV_center : cellV 112 56 = 0 := by
  norm_num [cellV]

theorem cellRay_center (camera : Vec3 ℝ) :
    cellRay 200 250 200 112 camera 100 56 = ⟨camera, ⟨0, 0, 1⟩⟩ := by
  rw [cellRay, cellU_center, cellV_center, mkRay_unit (by norm_num)]

theorem intersect_camA :
    sphereScene.intersect ⟨⟨0, 13/5, 17/10⟩, ⟨0, 0, 1⟩⟩ =
      some (1/2, ⟨0, 13/5, 11/5⟩, ⟨0, 3/5, -4/5⟩) := by
  have hdisc : disc sphereScene ⟨⟨0, 13/5, 17/10⟩, ⟨0, 0, 1⟩⟩ = 64/25 := by
    norm_num [disc, quadA, quadB, quadC, Vec3.dot, sphereScene]
  have hroot : nearRoot sphereScene ⟨⟨0, 13/5, 17/10⟩, ⟨0, 0, 1⟩⟩ = 1/2 := by
    rw [nearRoot, hdisc, sqrt_eval (by norm_num : (0:ℝ) ≤ 8/5) (by norm_num)]
    norm_num [quadA, quadB, Vec3.dot, sphereScene]
  rw [intersect_ite, hdisc, hroot, if_neg (by norm_num), if_neg (by norm_num)]
  have hhp : (⟨⟨0, 13/5, 17/10⟩, ⟨0, 0, 1⟩⟩ : Ray).origin +
      (⟨⟨0, 13/5, 17/10⟩, ⟨0, 0, 1⟩⟩ : Ray).direction * (1/2 : ℝ) =
      (⟨0, 13/5, 11/5⟩ : Vec3 ℝ) := by
    norm_num
  rw [hhp]
  have hsub : (⟨0, 13/5, 11/5⟩ : Vec3 ℝ) - sphereScene.center = ⟨0, 3/5, -4/5⟩ := by
    norm_num [sphereScene]
  rw [hsub, normalize_unit (by norm_num)]

theorem intersect_camB :
    sphereScene.intersect ⟨⟨0, 13/5, 0⟩, ⟨0, 0, 1⟩⟩ =
      some (11/5, ⟨0, 13/5, 11/5⟩, ⟨0, 3/5, -4/5⟩) := by
  have hdisc : disc sphereScene ⟨⟨0, 13/5, 0⟩, ⟨0, 0, 1⟩⟩ = 64/25 := by
    norm_num [disc, quadA, quadB, quadC, Vec3.dot, sphereScene]
  have hroot : nearRoot sphereScene ⟨⟨0, 13/5, 0⟩, ⟨0, 0, 1⟩⟩ = 11/5 := by
    rw [nearRoot, hdisc, sqrt_eval (by norm_num : (0:ℝ) ≤ 8/5) (by norm_num)]
    norm_num [quadA, quadB, Vec3.dot, sphereScene]
  rw [intersect_ite, hdisc, hroot, if_neg (by norm_num), if_neg (by norm_num)]
  have hhp : (⟨⟨0, 13/5, 0⟩, ⟨0, 0, 1⟩⟩ : Ray).origin +
      (⟨⟨0, 13/5, 0⟩, ⟨0, 0, 1⟩⟩ : Ray).direction * (11/5 : ℝ) =
      (⟨0, 13/5, 11/5⟩ : Vec3 ℝ) := by
    norm_num
  rw [hhp]
  have hsub : (⟨0, 13/5, 11/5⟩ : Vec3 ℝ) - sphereScene.center = ⟨0, 3/5, -4/5⟩ := by
    norm_num [sphereScene]
  rw [hsub, normalize_unit (by norm_num)]

theorem intersect_camC :
    sphereScene.intersect ⟨⟨0, 7/5, 0⟩, ⟨0, 0, 1⟩⟩ =
      some (11/5, ⟨0, 7/5, 11/5⟩, ⟨0, -3/5, -4/5⟩) := by
  have hdisc : disc sphereScene ⟨⟨0, 7/5, 0⟩, ⟨0, 0, 1⟩⟩ = 64/25 := by
    norm_num [disc, quadA, quadB, quadC, Vec3.dot, sphereScene]
  have hroot : nearRoot sphereScene ⟨⟨0, 7/5, 0⟩, ⟨0, 0, 1⟩⟩ = 11/5 := by
    rw [nearRoot, hdisc, sqrt_eval (by norm_num : (0:ℝ) ≤ 8/5) (by norm_num)]
    norm_num [quadA, quadB, Vec3.dot, sphereScene]
  rw [intersect_ite, hdisc, hroot, if_neg (by norm_num), if_neg (by norm_num)]
  have hhp : (⟨⟨0, 7/5, 0⟩, ⟨0, 0, 1⟩⟩ : Ray).origin +
      (⟨⟨0, 7/5, 0⟩, ⟨0, 0, 1⟩⟩ : Ray).direction * (11/5 : ℝ) =
      (⟨0, 7/5, 11/5⟩ : Vec3 ℝ) := by
    norm_num
  rw [hhp]
  have hsub : (⟨0, 7/5, 11/5⟩ : Vec3 ℝ) - sphereScene.center = ⟨0, -3/5, -4/5⟩ := by
    norm_num [sphereScene]
  rw [hsub, normalize_unit (by norm_num)]

end AsciiRay

namespace AsciiRay

theorem getShade_sat {t : ℝ} (ht : 1 ≤ t) : getShade t true = '*' := by
  rw [getShade_true_eq]
  have hm : min (1 : ℝ) (max 0 t) = 1 := by
    rw [max_eq_right (zero_le_one.trans ht), min_eq_left ht]
  rw [hm]
  have h6 : ⌊(1 * 6 : ℝ)⌋ = 6 := by
    rw [Int.floor_eq_iff]
    norm_num
  rw [h6]
  rfl

/-- C5: `intersect` misses exactly when the discriminant is negative or the
near root `(-b - sqrt(disc)) / (2a)` is nonpositive, and otherwise hits at
the near root with hit point `origin + direction * t` and normal
`normalize (hitPoint - center)`; concretely, the axial ray from the origin
toward the sphere at `(0,0,5)` with radius 1 hits at `t = 4` with normal
anti-parallel to the ray direction. -/
theorem intersect_spec :
    (∀ (s : Sphere) (ray : Ray),
      s.intersect ray =
        if disc s ray < 0 then none
        else if nearRoot s ray ≤ 0 then none
        else some (nearRoot s ray, ray.origin + ray.direction * nearRoot s ray,
          (ray.origin + ray.direction * nearRoot s ray - s.center).normalize)) ∧
      (Sphere.mk ⟨0, 0, 5⟩ 1).intersect (mkRay ⟨0, 0, 0⟩ ⟨0, 0, 1⟩) =
        some (4, ⟨0, 0, 4⟩, ⟨0, 0, -1⟩) ∧
      (⟨0, 0, -1⟩ : Vec3 ℝ) = (mkRay ⟨0, 0, 0⟩ ⟨0, 0, 1⟩).direction * (-1 : ℝ) := by
  refine ⟨intersect_ite, intersect_c5, ?_⟩
  rw [mkRay_unit (by norm_num)]
  norm_num

/-- C6: when the camera ray of a cell hits the sphere and the reflection ray
crosses the floor plane at a positive distance, the cell's character is `'*'`
when the floored coordinate sum of the crossing point is even and a space
when it is odd. -/
theorem floor_reflection_spec (w h aw ah x y : ℕ) (cam : Vec3 ℝ) (t : ℝ)
    (hp n : Vec3 ℝ)
    (hI : sphereScene.intersect (cellRay w h aw ah cam x y) = some (t, hp, n))
    (hfd : -hp.y / (mkRay hp (reflectionDir (cellRay w h aw ah cam x y).direction
      n)).direction.y > 0) :
    renderChar w h aw ah cam x y =
      if (⌊(hp + (mkRay hp (reflectionDir (cellRay w h aw ah cam x y).direction
            n)).direction * (-hp.y / (mkRay hp (reflectionDir
            (cellRay w h aw ah cam x y).direction n)).direction.y)).x⌋ +
          ⌊(hp + (mkRay hp (reflectionDir (cellRay w h aw ah cam x y).direction
            n)).direction * (-hp.y / (mkRay hp (reflectionDir
            (cellRay w h aw ah cam x y).direction n)).direction.y)).z⌋) % 2 = 0
      then '*' else ' ' := by
  rw [renderChar, shadeRay_some hI, if_pos hfd, getShade_one_bool]
  simp only [isCheckerboard, beq_iff_eq]

/-- C2 (amended): when the camera ray of a cell hits the sphere at distance
`t` and the reflection ray has no positive crossing with the floor plane,
the cell's character is `getShade t true` — shading by the hit distance, not
by the constant intensity 1 — which is the brightest character `'*'`
whenever `t ≥ 1`. -/
theorem skyward_shade_amended (w h aw ah x y : ℕ) (cam : Vec3 ℝ) (t : ℝ)
    (hp n : Vec3 ℝ)
    (hI : sphereScene.intersect (cellRay w h aw ah cam x y) = some (t, hp, n))
    (hfd : ¬(-hp.y / (mkRay hp (reflectionDir (cellRay w h aw ah cam x y).direction
      n)).direction.y > 0)) :
    renderChar w h aw ah cam x y = getShade t true ∧
      (1 ≤ t → getShade t true = '*') := by
  constructor
  · rw [renderChar, shadeRay_some hI, if_neg hfd]
  · exact fun ht => getShade_sat ht

end AsciiRay

namespace AsciiRay

theorem reflDir_axis_pos :
    reflectionDir (⟨⟨0, 13/5, 17/10⟩, ⟨0, 0, 1⟩⟩ : Ray).direction ⟨0, 3/5, -4/5⟩ =
      ⟨0, 24/25, -7/25⟩ := by
  norm_num [reflectionDir, Vec3.dot]

theorem reflDir_axis_posB :
    reflectionDir (⟨⟨0, 13/5, 0⟩, ⟨0, 0, 1⟩⟩ : Ray).direction ⟨0, 3/5, -4/5⟩ =
      ⟨0, 24/25, -7/25⟩ := by
  norm_num [reflectionDir, Vec3.dot]

theorem reflDir_axis_neg :
    reflectionDir (⟨⟨0, 7/5, 0⟩, ⟨0, 0, 1⟩⟩ : Ray).direction ⟨0, -3/5, -4/5⟩ =
      ⟨0, -24/25, -7/25⟩ := by
  norm_num [reflectionDir, Vec3.dot]

/-- C2 counterexample: at camera `(0, 13/5, 17/10)` the center cell's ray hits
the sphere at `t = 1/2`, the reflection points skyward (`floorDist` is not
positive), yet the rendered character is `'-'`, not the brightest `'*'`:
the source shades with the hit distance, not with intensity 1. -/
theorem skyward_shade_cex :
    sphereScene.intersect (cellRay 200 250 200 112 ⟨0, 13/5, 17/10⟩ 100 56) =
        some (1/2, ⟨0, 13/5, 11/5⟩, ⟨0, 3/5, -4/5⟩) ∧
      (mkRay ⟨0, 13/5, 11/5⟩ (reflectionDir
          (cellRay 200 250 200 112 ⟨0, 13/5, 17/10⟩ 100 56).direction
          ⟨0, 3/5, -4/5⟩)).direction.y = 24/25 ∧
      ¬(-(13/5 : ℝ) / (24/25 : ℝ) > 0) ∧
      renderChar 200 250 200 112 ⟨0, 13/5, 17/10⟩ 100 56 = '-' ∧
      '-' ≠ '*' := by
  refine ⟨?_, ?_, by norm_num, ?_, by decide⟩
  · rw [cellRay_center]
    exact intersect_camA
  · rw [cellRay_center, reflDir_axis_pos, mkRay_unit (by norm_num)]
  · rw [renderChar, cellRay_center, shadeRay_some intersect_camA,
      reflDir_axis_pos, mkRay_unit (by norm_num)]
    rw [if_neg (by norm_num)]
    have hf : ⌊(1/2 * 6 : ℝ)⌋ = 3 := by
      rw [Int.floor_eq_iff]
      norm_num
    simp only [getShade, shades]
    norm_num [hf]
    rfl

end AsciiRay

namespace AsciiRay

/-- C2 witness: at camera `(0, 13/5, 0)` the center cell's ray hits the sphere
at `t = 11/5 ≥ 1` with a skyward reflection, and the amended claim applied
there yields the brightest character `'*'`. -/
theorem skyward_shade_amended_witness :
    renderChar 200 250 200 112 ⟨0, 13/5, 0⟩ 100 56 = '*' := by
  have hcr := cellRay_center (⟨0, 13/5, 0⟩ : Vec3 ℝ)
  have h1 : sphereScene.intersect (cellRay 200 250 200 112 ⟨0, 13/5, 0⟩ 100 56) =
      some (11/5, ⟨0, 13/5, 11/5⟩, ⟨0, 3/5, -4/5⟩) := by
    rw [hcr]
    exact intersect_camB
  have h2 : ¬(-(⟨0, 13/5, 11/5⟩ : Vec3 ℝ).y / (mkRay ⟨0, 13/5, 11/5⟩
      (reflectionDir (cellRay 200 250 200 112 ⟨0, 13/5, 0⟩ 100 56).direction
        ⟨0, 3/5, -4/5⟩)).direction.y > 0) := by
    rw [hcr, reflDir_axis_posB, mkRay_unit (by norm_num)]
    norm_num
  have X := skyward_shade_amended 200 250 200 112 100 56 ⟨0, 13/5, 0⟩ (11/5)
    ⟨0, 13/5, 11/5⟩ ⟨0, 3/5, -4/5⟩ h1 h2
  exact X.1.trans (X.2 (by norm_num))

/-- C6 witness: at camera `(0, 7/5, 0)` the center cell's ray hits the sphere
at `t = 11/5` and the reflection crosses the floor at `(0, 0, 43/24)`, whose
floored coordinate sum `1` is odd, so the claim yields a space. -/
theorem floor_reflection_spec_witness :
    renderChar 200 250 200 112 ⟨0, 7/5, 0⟩ 100 56 = ' ' := by
  have hcr := cellRay_center (⟨0, 7/5, 0⟩ : Vec3 ℝ)
  have h1 : sphereScene.intersect (cellRay 200 250 200 112 ⟨0, 7/5, 0⟩ 100 56) =
      some (11/5, ⟨0, 7/5, 11/5⟩, ⟨0, -3/5, -4/5⟩) := by
    rw [hcr]
    exact intersect_camC
  have h2 : -(⟨0, 7/5, 11/5⟩ : Vec3 ℝ).y / (mkRay ⟨0, 7/5, 11/5⟩
      (reflectionDir (cellRay 200 250 200 112 ⟨0, 7/5, 0⟩ 100 56).direction
        ⟨0, -3/5, -4/5⟩)).direction.y > 0 := by
    rw [hcr, reflDir_axis_neg, mkRay_unit (by norm_num)]
    norm_num
  have X := floor_reflection_spec 200 250 200 112 100 56 ⟨0, 7/5, 0⟩ (11/5)
    ⟨0, 7/5, 11/5⟩ ⟨0, -3/5, -4/5⟩ h1 h2
  rw [hcr, reflDir_axis_neg, mkRay_unit (by norm_num)] at X
  rw [X]
  have hf43 : ⌊(43/24 : ℝ)⌋ = 1 := by
    rw [Int.floor_eq_iff]
    norm_num
  have harg : (11/5 : ℝ) + -7/25 * (-(7/5) / (-24/25)) = 43/24 := by norm_num
  rw [if_neg]
  norm_num [harg, hf43]

end AsciiRay

namespace AsciiRay

theorem renderStep_apply_ne (w h aw ah : ℕ) (cam : Vec3 ℝ)
    (st : (ℕ → Char) × (ℕ → Bool)) (c : ℕ × ℕ) (j : ℕ) (hj : idx w c ≠ j) :
    (renderStep w h aw ah cam st c).1 j = st.1 j ∧
      (renderStep w h aw ah cam st c).2 j = st.2 j := by
  rw [renderStep]
  split_ifs with hne
  · exact ⟨Function.update_noteq (Ne.symm hj) _ _, Function.update_noteq (Ne.symm hj) _ _⟩
  · exact ⟨rfl, rfl⟩

theorem renderStep_apply_idx (w h aw ah : ℕ) (cam : Vec3 ℝ)
    (st : (ℕ → Char) × (ℕ → Bool)) (c : ℕ × ℕ) :
    (renderStep w h aw ah cam st c).1 (idx w c) =
      renderChar w h aw ah cam c.1 c.2 := by
  rw [renderStep]
  split_ifs with hne
  · exact Function.update_same _ _ _
  · push_neg at hne
    exact hne.symm

theorem foldl_untouched (w h aw ah : ℕ) (cam : Vec3 ℝ) (l : List (ℕ × ℕ))
    (st : (ℕ → Char) × (ℕ → Bool)) (j : ℕ) (hl : ∀ c ∈ l, idx w c ≠ j) :
    (l.foldl (renderStep w h aw ah cam) st).1 j = st.1 j ∧
      (l.foldl (renderStep w h aw ah cam) st).2 j = st.2 j := by
  induction l generalizing st with
  | nil => exact ⟨rfl, rfl⟩
  | cons a tl ih =>
    simp only [List.foldl_cons]
    have hstep := renderStep_apply_ne w h aw ah cam st a j
      (hl a (List.mem_cons_self a tl))
    have hrest := ih (renderStep w h aw ah cam st a)
      (fun c hc => hl c (List.mem_cons_of_mem a hc))
    exact ⟨hrest.1.trans hstep.1, hrest.2.trans hstep.2⟩

theorem foldl_value (w h aw ah : ℕ) (cam : Vec3 ℝ) (l : List (ℕ × ℕ))
    (st : (ℕ → Char) × (ℕ → Bool)) (c : ℕ × ℕ) (hc : c ∈ l)
    (hnd : (l.map (idx w)).Nodup) :
    (l.foldl (renderStep w h aw ah cam) st).1 (idx w c) =
      renderChar w h aw ah cam c.1 c.2 := by
  induction l generalizing st with
  | nil => cases hc
  | cons a tl ih =>
    simp only [List.map_cons, List.nodup_cons] at hnd
    obtain ⟨hna, hnd'⟩ := hnd
    simp only [List.foldl_cons]
    by_cases hca : c ∈ tl
    · exact ih (renderStep w h aw ah cam st a) hca hnd'
    · have hac : c = a := by
        rcases List.mem_cons.1 hc with hh | hh
        · exact hh
        · exact absurd hh hca
      subst hac
      have hne : ∀ b ∈ tl, idx w b ≠ idx w c := by
        intro b hb heq
        exact hna (heq ▸ List.mem_map_of_mem (idx w) hb)
      exact ((foldl_untouched w h aw ah cam tl _ _ hne).1).trans
        (renderStep_apply_idx w h aw ah cam st c)

theorem foldl_nochange (w h aw ah : ℕ) (cam : Vec3 ℝ) (l : List (ℕ × ℕ))
    (st : (ℕ → Char) × (ℕ → Bool))
    (hst : ∀ c ∈ l, renderChar w h aw ah cam c.1 c.2 = st.1 (idx w c)) :
    l.foldl (renderStep w h aw ah cam) st = st := by
  induction l with
  | nil => rfl
  | cons a tl ih =>
    have hstep : renderStep w h aw ah cam st a = st := by
      rw [renderStep,
        if_neg (by push_neg; exact hst a (List.mem_cons_self a tl))]
    simp only [List.foldl_cons, hstep]
    exact ih fun c hc => hst c (List.mem_cons_of_mem a hc)

theorem idx_inj {w : ℕ} {c c' : ℕ × ℕ} (h1 : c.1 < w) (h2 : c'.1 < w)
    (he : idx w c = idx w c') : c = c' := by
  unfold idx at he
  have hw : 0 < w := Nat.lt_of_le_of_lt (Nat.zero_le _) h1
  have he' : w * c.2 + c.1 = w * c'.2 + c'.1 := by
    rw [Nat.mul_comm w c.2, Nat.mul_comm w c'.2]
    exact he
  have e1 : (w * c.2 + c.1) / w = c.2 + c.1 / w := Nat.mul_add_div hw c.2 c.1
  have e2 : (w * c'.2 + c'.1) / w = c'.2 + c'.1 / w := Nat.mul_add_div hw c'.2 c'.1
  have d1 : c.1 / w = 0 := Nat.div_eq_of_lt h1
  have d2 : c'.1 / w = 0 := Nat.div_eq_of_lt h2
  have h3 : (w * c.2 + c.1) / w = (w * c'.2 + c'.1) / w := by rw [he']
  rw [e1, e2, d1, d2] at h3
  have hy : c.2 = c'.2 := by omega
  have hx : c.1 = c'.1 := by
    rw [hy] at he'
    exact Nat.add_left_cancel he'
  exact Prod.ext hx hy

end AsciiRay

namespace AsciiRay

theorem cellList_idx_nodup (w aw ah : ℕ) (haw : aw ≤ w) :
    ((cellList aw ah).map (idx w)).Nodup := by
  refine List.Nodup.map_on ?_ (cellList_nodup aw ah)
  intro c hc c' hc' he
  exact idx_inj ((cellList_mem.1 hc).1.trans_le haw)
    ((cellList_mem.1 hc').1.trans_le haw) he

theorem adjusted_fst_le (w h : ℕ) : (adjusted w h).1 ≤ w := by
  rw [adjusted]
  split_ifs with hlt
  · simp only
    have h0 : (0 : ℤ) ≤ ⌊(h : ℚ) * (16 / 9)⌋ := by
      apply Int.floor_nonneg.2
      positivity
    rw [Int.toNat_le]
    have hh : ((h : ℤ) : ℚ) < ⌊(w : ℚ) / (16 / 9)⌋ := by
      have := (Int.lt_toNat.1 hlt)
      exact_mod_cast this
    have hfl : (⌊(w : ℚ) / (16 / 9)⌋ : ℚ) ≤ (w : ℚ) / (16 / 9) := Int.floor_le _
    have hq : (h : ℚ) * (16 / 9) < (w : ℚ) := by
      have h1 : (h : ℚ) < (w : ℚ) / (16 / 9) := lt_of_lt_of_le hh hfl
      calc (h : ℚ) * (16 / 9) < ((w : ℚ) / (16 / 9)) * (16 / 9) := by
            apply mul_lt_mul_of_pos_right h1
            norm_num
        _ = (w : ℚ) := by ring
    have hfin : ⌊(h : ℚ) * (16 / 9)⌋ ≤ (w : ℤ) := by
      have hm := Int.floor_mono hq.le
      rwa [Int.floor_natCast] at hm
    exact_mod_cast hfin
  · simp

end AsciiRay

namespace AsciiRay

theorem adjusted_eval : adjusted 200 250 = (200, 112) := by
  have h200 : ((200 : ℕ) : ℚ) = 200 := by norm_num
  have hf : ⌊((200 : ℕ) : ℚ) / (16 / 9)⌋ = 112 := by
    rw [h200, Int.floor_eq_iff]
    norm_num
  simp only [adjusted, hf]
  norm_num
  rfl

/-- C7: render is deterministic and idempotent as a diff — rendering a second
time with the same camera and dimensions, starting from the buffer produced
by the first call, returns that same buffer together with an all-false
change mask. -/
theorem render_idempotent (w h : ℕ) (cam : Vec3 ℝ) (buf : ℕ → Char) :
    render w h cam (render w h cam buf).1 =
      ((render w h cam buf).1, fun _ => false) := by
  conv_lhs => rw [render]
  refine foldl_nochange w h (adjusted w h).1 (adjusted w h).2 cam _ _ ?_
  intro c hc
  conv_rhs => rw [render]
  exact (foldl_value w h (adjusted w h).1 (adjusted w h).2 cam _ _ c hc
    (cellList_idx_nodup w _ _ (adjusted_fst_le w h))).symm

/-- C9: for every cell outside the aspect-corrected sub-rectangle (column at
least `adjustedWidth` or row at least `adjustedHeight`), a render call leaves
the frame buffer value unchanged and the change-mask entry false. -/
theorem outside_subrect_untouched (w h : ℕ) (cam : Vec3 ℝ) (buf : ℕ → Char)
    (x y : ℕ) (hx : x < w)
    (hout : (adjusted w h).1 ≤ x ∨ (adjusted w h).2 ≤ y) :
    (render w h cam buf).1 (y * w + x) = buf (y * w + x) ∧
      (render w h cam buf).2 (y * w + x) = false := by
  rw [render]
  refine foldl_untouched w h (adjusted w h).1 (adjusted w h).2 cam _ _ _ ?_
  intro c hc heq
  obtain ⟨hc1, hc2⟩ := cellList_mem.1 hc
  have hcw : c.1 < w := hc1.trans_le (adjusted_fst_le w h)
  have hcxy : c = (x, y) := idx_inj hcw hx heq
  rcases hout with ho | ho
  · rw [hcxy] at hc1
    exact absurd hc1 (not_lt.2 ho)
  · rw [hcxy] at hc2
    exact absurd hc2 (not_lt.2 ho)

/-- C9 witness: on the 200 by 250 grid the sub-rectangle is 200 by 112, so
the cell in column 5 of row 200 is outside it and a render call leaves its
buffer value and change flag untouched. -/
theorem outside_subrect_untouched_witness :
    (render 200 250 ⟨0, 1, -6⟩ (fun _ => 'q')).1 (200 * 200 + 5) = 'q' ∧
      (render 200 250 ⟨0, 1, -6⟩ (fun _ => 'q')).2 (200 * 200 + 5) = false :=
  outside_subrect_untouched 200 250 ⟨0, 1, -6⟩ (fun _ => 'q') 5 200
    (by norm_num) (Or.inr (by rw [adjusted_eval]; norm_num))

end AsciiRay

namespace AsciiRay

theorem mkRay_direction (o w : Vec3 ℝ) : (mkRay o w).direction = w.normalize := rfl

theorem dot_normalize_self {v : Vec3 ℝ}
    (h : 0 < v.x * v.x + v.y * v.y + v.z * v.z) :
    Vec3.dot v.normalize v.normalize = 1 := by
  simp only [Vec3.normalize, Vec3.dot, Vec3.mk_x, Vec3.mk_y, Vec3.mk_z]
  rw [div_mul_div_comm, div_mul_div_comm, div_mul_div_comm, div_add_div_same,
    div_add_div_same, Real.mul_self_sqrt h.le]
  exact div_self (ne_of_gt h)

theorem nearRoot_root (s : Sphere) (ray : Ray) (ha : quadA ray ≠ 0)
    (hd : 0 ≤ disc s ray) :
    quadA ray * (nearRoot s ray * nearRoot s ray) +
      quadB s ray * nearRoot s ray + quadC s ray = 0 := by
  have hs : Real.sqrt (disc s ray) * Real.sqrt (disc s ray) = disc s ray :=
    Real.mul_self_sqrt hd
  rw [disc] at hs
  rw [nearRoot, disc]
  field_simp
  linear_combination 2 * quadA ray ^ 2 * hs

theorem hit_on_sphere (s : Sphere) (ray : Ray) (ha : quadA ray ≠ 0)
    (hd : 0 ≤ disc s ray) :
    Vec3.dot (ray.origin + ray.direction * nearRoot s ray - s.center)
      (ray.origin + ray.direction * nearRoot s ray - s.center) =
      s.radius * s.radius := by
  have h := nearRoot_root s ray ha hd
  simp only [quadA, quadB, quadC, Vec3.dot, Vec3.add_def, Vec3.sub_def,
    Vec3.smul_def, Vec3.mk_x, Vec3.mk_y, Vec3.mk_z] at h ⊢
  linear_combination h

theorem reflectionDir_unit {d n : Vec3 ℝ}
    (hd : Vec3.dot d d = 1) (hn : Vec3.dot n n = 1) :
    Vec3.dot (reflectionDir d n) (reflectionDir d n) = 1 := by
  simp only [reflectionDir, Vec3.dot, Vec3.sub_def, Vec3.smul_def, Vec3.mk_x,
    Vec3.mk_y, Vec3.mk_z] at hd hn ⊢
  linear_combination hd + 4 * (d.x * n.x + d.y * n.y + d.z * n.z)^2 * hn

end AsciiRay

namespace AsciiRay

/-- C8: the geometric pipeline's normalization preconditions all hold: every
camera-ray direction `(u, v, 1)` is nonzero (its z-component is 1), and on
any sphere hit both the vector `hitPoint - center` fed to `normalize` for
the surface normal and the mirror reflection direction built from the unit
ray direction and unit normal have positive squared magnitude. -/
theorem normalize_preconditions (cam : Vec3 ℝ) (u v t : ℝ) (hp n : Vec3 ℝ) :
    0 < Vec3.dot (⟨u, v, 1⟩ : Vec3 ℝ) ⟨u, v, 1⟩ ∧
      (sphereScene.intersect (mkRay cam ⟨u, v, 1⟩) = some (t, hp, n) →
        0 < Vec3.dot (hp - sphereScene.center) (hp - sphereScene.center) ∧
          0 < Vec3.dot (reflectionDir (mkRay cam ⟨u, v, 1⟩).direction n)
            (reflectionDir (mkRay cam ⟨u, v, 1⟩).direction n)) := by
  have hpos : (0 : ℝ) < u * u + v * v + 1 * 1 := by
    nlinarith [mul_self_nonneg u, mul_self_nonneg v]
  have hpos' : 0 < Vec3.dot (⟨u, v, 1⟩ : Vec3 ℝ) ⟨u, v, 1⟩ := hpos
  refine ⟨hpos', fun hI => ?_⟩
  have hd1 : Vec3.dot (mkRay cam ⟨u, v, 1⟩).direction
      (mkRay cam ⟨u, v, 1⟩).direction = 1 := by
    rw [mkRay_direction]
    exact dot_normalize_self hpos
  have ha : quadA (mkRay cam ⟨u, v, 1⟩) = 1 := hd1
  rw [intersect_ite] at hI
  by_cases h1 : disc sphereScene (mkRay cam ⟨u, v, 1⟩) < 0
  · rw [if_pos h1] at hI
    exact absurd hI (by simp)
  rw [if_neg h1] at hI
  by_cases h2 : nearRoot sphereScene (mkRay cam ⟨u, v, 1⟩) ≤ 0
  · rw [if_pos h2] at hI
    exact absurd hI (by simp)
  rw [if_neg h2] at hI
  injection hI with e0
  injection e0 with et erest
  injection erest with ehp en
  have honsphere := hit_on_sphere sphereScene (mkRay cam ⟨u, v, 1⟩)
    (by rw [ha]; exact one_ne_zero) (not_lt.1 h1)
  rw [ehp] at honsphere
  have hrad : sphereScene.radius * sphereScene.radius = 1 := by
    norm_num [sphereScene]
  rw [hrad] at honsphere
  refine ⟨by rw [honsphere]; norm_num, ?_⟩
  have hn1 : Vec3.dot n n = 1 := by
    rw [← en]
    apply dot_normalize_self
    show 0 < Vec3.dot ((mkRay cam ⟨u, v, 1⟩).origin +
        (mkRay cam ⟨u, v, 1⟩).direction *
          nearRoot sphereScene (mkRay cam ⟨u, v, 1⟩) - sphereScene.center)
      ((mkRay cam ⟨u, v, 1⟩).origin +
        (mkRay cam ⟨u, v, 1⟩).direction *
          nearRoot sphereScene (mkRay cam ⟨u, v, 1⟩) - sphereScene.center)
    rw [ehp, honsphere]
    norm_num
  rw [reflectionDir_unit hd1 hn1]
  norm_num

/-- C8 witness: the preconditions instantiated at camera `(0, 13/5, 17/10)`
and the axial direction `(0, 0, 1)`, whose ray hits the sphere at
`(0, 13/5, 11/5)` with normal `(0, 3/5, -4/5)`. -/
theorem normalize_preconditions_witness :
    0 < Vec3.dot (⟨0, 0, 1⟩ : Vec3 ℝ) ⟨0, 0, 1⟩ ∧
      (0 < Vec3.dot ((⟨0, 13/5, 11/5⟩ : Vec3 ℝ) - sphereScene.center)
          ((⟨0, 13/5, 11/5⟩ : Vec3 ℝ) - sphereScene.center) ∧
        0 < Vec3.dot (reflectionDir (mkRay ⟨0, 13/5, 17/10⟩ ⟨0, 0, 1⟩).direction
            ⟨0, 3/5, -4/5⟩)
          (reflectionDir (mkRay ⟨0, 13/5, 17/10⟩ ⟨0, 0, 1⟩).direction
            ⟨0, 3/5, -4/5⟩)) := by
  have X := normalize_preconditions ⟨0, 13/5, 17/10⟩ 0 0 (1/2)
    ⟨0, 13/5, 11/5⟩ ⟨0, 3/5, -4/5⟩
  have hI : sphereScene.intersect (mkRay ⟨0, 13/5, 17/10⟩ ⟨0, 0, 1⟩) =
      some (1/2, ⟨0, 13/5, 11/5⟩, ⟨0, 3/5, -4/5⟩) := by
    rw [mkRay_unit (by norm_num)]
    exact intersect_camA
  exact ⟨X.1, X.2 hI⟩

/-- C4 counterexample: on the 200 by 250 grid the sub-rectangle is 200 by
112; at column 0 the source computes `u = -2/5` using the full grid's aspect
ratio `200/250`, while the claimed scaling by the sub-rectangle's own ratio
`200/112` would give `-25/28`. -/
theorem cellU_scale_cex :
    adjusted 200 250 = (200, 112) ∧
      cellU 200 250 200 0 = -2/5 ∧
      ((0 : ℝ) - (200 : ℝ) / 2) / (200 : ℝ) * ((200 : ℝ) / (112 : ℝ)) = -25/28 ∧
      (-2/5 : ℝ) ≠ -25/28 := by
  refine ⟨adjusted_eval, ?_, by norm_num, by norm_num⟩
  norm_num [cellU]

/-- C4 (amended): for every cell of the sub-rectangle the horizontal
view-plane coordinate is `u = ((x - adjustedWidth/2) / adjustedWidth)`
scaled by the full grid's aspect ratio `width/height` (not the
sub-rectangle's own ratio), `v` is centered at the sub-rectangle's middle,
and the cell's camera ray is built through `(u, v, 1)` relative to the
camera position. -/
theorem cell_mapping_spec (w h aw ah x y : ℕ) (cam : Vec3 ℝ) :
    cellU w h aw x = ((x : ℝ) - (aw : ℝ) / 2) / (aw : ℝ) * ((w : ℝ) / (h : ℝ)) ∧
      cellV ah y = ((ah : ℝ) / 2 - (y : ℝ)) / (ah : ℝ) ∧
      cellRay w h aw ah cam x y = mkRay cam ⟨cellU w h aw x, cellV ah y, 1⟩ ∧
      renderChar w h aw ah cam x y =
        shadeRay cam (cellRay w h aw ah cam x y) :=
  ⟨rfl, rfl, rfl, rfl⟩

end AsciiRay
